import Mathlib

set_option linter.unusedVariables false

/-!
Shallow embedding of `src/app/process_pdfs.py` (class `PDFOutlineExtractor`).

Strings are modelled as `List Char`; Python string length is `List.length`.
Regular expressions (all anchored at the start by `re.match`) are modelled by
a small token list interpreted by `matchToks`; `$` is modelled by `Tok.eos`
which, as in Python (no MULTILINE), accepts the end of the string or a final
newline.  Character classes use ASCII semantics (`Char.isAlpha`,
`Char.isDigit`, `Char.isUpper`, `Char.isLower`), an adequate model of the
Python defaults for the claims below.  Font sizes are modelled as `Option ℚ`
(`None` / a float value); the Python truthiness test `if font_size:` is false
for `None` and for `0.0`.
-/

namespace ProcessPdfs

/-- Python `\s` whitespace class (ASCII part). -/
def isSpace (c : Char) : Bool :=
  c == ' ' || c == '\t' || c == '\n' || c == '\r' || c == '\x0b' || c == '\x0c'

/-- Python `\w` word-character class (ASCII part): letters, digits, underscore. -/
def wordChar (c : Char) : Bool :=
  c.isAlpha || c.isDigit || c == '_'

/-- Python `str.strip()`: drop leading and trailing whitespace. -/
def pyStrip (t : List Char) : List Char :=
  ((t.dropWhile isSpace).reverse.dropWhile isSpace).reverse

/-- Python `re.sub(r'\s+', ' ', t)`: each maximal whitespace run becomes one space. -/
def collapseWs : List Char → List Char
  | [] => []
  | [c] => if isSpace c then [' '] else [c]
  | c :: c2 :: cs =>
    if isSpace c then
      (if isSpace c2 then collapseWs (c2 :: cs) else ' ' :: collapseWs (c2 :: cs))
    else c :: collapseWs (c2 :: cs)

/-- Python `re.sub(r'\s+\d+\s*$', '', t)`: remove a trailing run of whitespace,
digits and optional trailing whitespace (the "page-number artifact").  The
leftmost match consumes the whole contiguous whitespace run before the digits,
and `\s*` greedily consumes any trailing whitespace (including a final newline,
matching Python's `$`). -/
def stripTrailingPageNum (t : List Char) : List Char :=
  let rev := t.reverse
  let r1 := rev.dropWhile isSpace
  let d := r1.takeWhile Char.isDigit
  if d = [] then t
  else
    let r2 := r1.drop d.length
    let w := r2.takeWhile isSpace
    if w = [] then t else (r2.drop w.length).reverse

/-- Python `str.rstrip('.')`: drop trailing period characters. -/
def rstripDots (t : List Char) : List Char :=
  (t.reverse.dropWhile (fun c => c == '.')).reverse

/-- `clean_text` from the source: empty for empty input, else strip, collapse
whitespace, strip a trailing page-number artifact, strip trailing periods. -/
def clean_text (t : List Char) : List Char :=
  if t = [] then []
  else rstripDots (stripTrailingPageNum (collapseWs (pyStrip t)))

/-- Python `text.split('\n')` (keeps empty pieces; `[] → [[]]` models `'' → ['']`). -/
def splitNl : List Char → List (List Char)
  | [] => [[]]
  | c :: cs =>
    if c = '\n' then [] :: splitNl cs
    else
      match splitNl cs with
      | p :: ps => (c :: p) :: ps
      | [] => [[c]]

/-- Auxiliary scan for Python `str.istitle()`: tracks whether the previous
character was cased and whether a cased character has been seen. -/
def istitleAux : List Char → Bool → Bool → Bool
  | [], _, found => found
  | c :: cs, prevCased, found =>
    if c.isUpper then (if prevCased then false else istitleAux cs true true)
    else if c.isLower then (if prevCased then istitleAux cs true true else false)
    else istitleAux cs false found

/-- Python `str.istitle()`: uppercase letters follow only uncased characters,
lowercase letters follow only cased ones, and at least one cased character. -/
def istitle (t : List Char) : Bool :=
  istitleAux t false false

/-- Python `str.isupper()`: at least one cased character and no lowercase one. -/
def pyIsUpper (t : List Char) : Bool :=
  t.any (·.isUpper) && t.all (fun c => !c.isLower)

/-- Python `str.title()` scan: a cased character after a cased one is lowered,
after an uncased one it is raised. -/
def pyTitleAux : List Char → Bool → List Char
  | [], _ => []
  | c :: cs, prevCased =>
    if c.isUpper || c.isLower then
      (if prevCased then c.toLower else c.toUpper) :: pyTitleAux cs true
    else c :: pyTitleAux cs false

/-- Python `str.title()`. -/
def pyTitle (t : List Char) : List Char :=
  pyTitleAux t false

/-- Python substring test `needle in hay`. -/
def containsSub (needle : List Char) : List Char → Bool
  | [] => needle.isEmpty
  | c :: t => needle.isPrefixOf (c :: t) || containsSub needle t

/-- Regex tokens: a single character from a class, a greedy class star / plus,
and `$` (end of string or a lone final newline, as in Python without MULTILINE). -/
inductive Tok where
  | one (p : Char → Bool)
  | star (p : Char → Bool)
  | plus (p : Char → Bool)
  | eos

/-- Matcher for a token sequence against a string, anchored at the start as
`re.match` is; an exhausted token list succeeds (no `$` means a pure
start-anchored search).  A star/plus consumes any number of class characters:
the possible remainders are exactly the drops by `k ≤ length of the maximal
class run`. -/
def matchToks : List Tok → List Char → Bool
  | [], _ => true
  | Tok.one _ :: _, [] => false
  | Tok.one p :: ts, c :: cs => p c && matchToks ts cs
  | Tok.star p :: ts, cs =>
    (List.range ((cs.takeWhile p).length + 1)).any (fun k => matchToks ts (cs.drop k))
  | Tok.plus _ :: _, [] => false
  | Tok.plus p :: ts, c :: cs =>
    p c && (List.range ((cs.takeWhile p).length + 1)).any (fun k => matchToks ts (cs.drop k))
  | Tok.eos :: ts, cs => (cs.isEmpty || cs == ['\n']) && matchToks ts cs

/-- Case-insensitive literal: one token per character (`re.IGNORECASE`). -/
def litToks (s : List Char) : List Tok :=
  s.map (fun a => Tok.one (fun c => c.toLower == a))

/-- Character class `[\.\)]`. -/
def dotOrParen (c : Char) : Bool := c == '.' || c == ')'

/-- Character class `[:\.\s]`. -/
def colonDotSpace (c : Char) : Bool := c == ':' || c == '.' || isSpace c

/-- Character class `.` (any character but newline, no DOTALL). -/
def notNl (c : Char) : Bool := c != '\n'

/-- Character class `[IVX]` under IGNORECASE. -/
def ivxChar (c : Char) : Bool :=
  c == 'I' || c == 'V' || c == 'X' || c == 'i' || c == 'v' || c == 'x'

/-- Character class `[A-Z]` under IGNORECASE. -/
def azChar (c : Char) : Bool := c.isUpper || c.isLower

/-- Pattern `^(\d+\.)\s+(.+)$`. -/
def pat1 : List Tok :=
  [Tok.plus Char.isDigit, Tok.one (· == '.'), Tok.plus isSpace, Tok.plus notNl, Tok.eos]

/-- Pattern `^(\d+\.\d+)\s+(.+)$`. -/
def pat2 : List Tok :=
  [Tok.plus Char.isDigit, Tok.one (· == '.'), Tok.plus Char.isDigit,
   Tok.plus isSpace, Tok.plus notNl, Tok.eos]

/-- Pattern `^(\d+\.\d+\.\d+)\s+(.+)$`. -/
def pat3 : List Tok :=
  [Tok.plus Char.isDigit, Tok.one (· == '.'), Tok.plus Char.isDigit,
   Tok.one (· == '.'), Tok.plus Char.isDigit, Tok.plus isSpace, Tok.plus notNl, Tok.eos]

/-- Pattern `^(Chapter\s+\d+)[:\.\s]*(.*)$` (also its `CHAPTER` twin: identical
under IGNORECASE). -/
def patChapter : List Tok :=
  litToks ['c', 'h', 'a', 'p', 't', 'e', 'r'] ++
    [Tok.plus isSpace, Tok.plus Char.isDigit, Tok.star colonDotSpace, Tok.star notNl, Tok.eos]

/-- Pattern `^(Section\s+\d+)[:\.\s]*(.*)$` (also its `SECTION` twin). -/
def patSection : List Tok :=
  litToks ['s', 'e', 'c', 't', 'i', 'o', 'n'] ++
    [Tok.plus isSpace, Tok.plus Char.isDigit, Tok.star colonDotSpace, Tok.star notNl, Tok.eos]

/-- Pattern `^(Appendix\s+[A-Z])[:\.\s]*(.*)$` (also its `APPENDIX` twin). -/
def patAppendix : List Tok :=
  litToks ['a', 'p', 'p', 'e', 'n', 'd', 'i', 'x'] ++
    [Tok.plus isSpace, Tok.one azChar, Tok.star colonDotSpace, Tok.star notNl, Tok.eos]

/-- Pattern `^([IVX]+\.)\s+(.+)$`. -/
def patRoman : List Tok :=
  [Tok.plus ivxChar, Tok.one (· == '.'), Tok.plus isSpace, Tok.plus notNl, Tok.eos]

/-- Pattern `^([A-Z]\.)\s+(.+)$`. -/
def patLetter : List Tok :=
  [Tok.one azChar, Tok.one (· == '.'), Tok.plus isSpace, Tok.plus notNl, Tok.eos]

/-- The ordered `heading_patterns` list of the source (the all-caps twins are
kept as separate entries, as in the source; under IGNORECASE they coincide). -/
def heading_patterns : List (List Tok) :=
  [pat1, pat2, pat3, patChapter, patChapter, patSection, patSection,
   patAppendix, patAppendix, patRoman, patLetter]

/-- Inner body of the pattern loop of `classify_heading_level`: the secondary
checks `^\d+\.$` → H1, `^\d+\.\d+$` → H2, `^\d+\.\d+\.\d+$` → H3, then the
chapter/appendix substring test, all on the stripped text. -/
def innerCheck (t : List Char) : Option String :=
  if matchToks [Tok.plus Char.isDigit, Tok.one (· == '.'), Tok.eos] t then some "H1"
  else if matchToks [Tok.plus Char.isDigit, Tok.one (· == '.'),
                     Tok.plus Char.isDigit, Tok.eos] t then some "H2"
  else if matchToks [Tok.plus Char.isDigit, Tok.one (· == '.'), Tok.plus Char.isDigit,
                     Tok.one (· == '.'), Tok.plus Char.isDigit, Tok.eos] t then some "H3"
  else if containsSub "chapter".toList (t.map Char.toLower) ||
          containsSub "appendix".toList (t.map Char.toLower) then some "H1"
  else none

/-- The `for pattern in self.heading_patterns` loop: on the first matching
pattern run the inner checks; if none of them fires, the loop continues (and,
the inner checks not depending on the pattern, never fires later either). -/
def classifyLoop : List (List Tok) → List Char → Option String
  | [], _ => none
  | p :: rest, t =>
    if matchToks p t then
      match innerCheck t with
      | some v => some v
      | none => classifyLoop rest t
    else classifyLoop rest t

/-- `classify_heading_level(text, line_position=0, font_size=None)` from the
source: strip, try the pattern loop, then the font-size thresholds
(`if font_size:` is false for `None` and `0.0`), then the title-case default. -/
def classify_heading_level (text : List Char) (line_position : Int := 0)
    (font_size : Option ℚ := none) : String :=
  let t := pyStrip text
  match classifyLoop heading_patterns t with
  | some lv => lv
  | none =>
    let byFont : Option String :=
      match font_size with
      | none => none
      | some fs =>
        if fs = 0 then none
        else if 16 ≤ fs then some "H1"
        else if 14 ≤ fs then some "H2"
        else if 12 ≤ fs then some "H3"
        else none
    match byFont with
    | some lv => lv
    | none => if istitle t then "H2" else "H3"

/-- Python `text.endswith(('.', ',', ';', '!', '?'))`. -/
def endsWithPunct (t : List Char) : Bool :=
  match t.reverse with
  | [] => false
  | c :: _ => c == '.' || c == ',' || c == ';' || c == '!' || c == '?'

/-- `is_likely_heading(text)` from the source. -/
def is_likely_heading (t : List Char) : Bool :=
  if t.length < 3 || t.length > 150 then false
  else if endsWithPunct t then false
  else if pyIsUpper t && t.length < 60 then true
  else if matchToks [Tok.plus (fun c => c.isDigit || wordChar c), Tok.one dotOrParen,
                     Tok.plus isSpace] t then true
  else if istitle t && 5 ≤ t.length && t.length ≤ 60 then true
  else false

/-- One entry of the produced outline: `{"level": ..., "text": ..., "page": ...}`. -/
structure HeadingRecord where
  level : String
  text : List Char
  page : Nat
deriving DecidableEq

/-- Abstract document as seen through the PDF collaborators: the PyPDF2
metadata title read (`none` models an exception while opening/reading the
metadata, an absent or falsy metadata object, or a missing `/Title` key — all
of which make `extract_title_from_metadata` fall through), whether
`pdfplumber.open` raises, the per-page `extract_text()` results (`Except.error`
models the collaborator throwing while reading that page, `none` a page with
no text layer), and the path stem used for the filename fallback. -/
structure PdfDoc where
  metaTitle : Option (List Char)
  openFails : Bool
  pages : List (Except Unit (Option (List Char)))
  stem : List Char

/-- `extract_title_from_metadata`: strip the raw `/Title` value; if truthy and
longer than 3 characters return its cleaned form, else `None`.  Exceptions are
swallowed (modelled by `metaTitle = none`). -/
def extract_title_from_metadata (d : PdfDoc) : Option (List Char) :=
  match d.metaTitle with
  | none => none
  | some raw =>
    let title := pyStrip raw
    if title ≠ [] ∧ 3 < title.length then some (clean_text title) else none

/-- Filename fallback `Path(pdf_path).stem.replace('_', ' ').replace('-', ' ').title()`. -/
def stemFallback (stem : List Char) : List Char :=
  pyTitle (stem.map (fun c => if c = '_' then ' ' else if c = '-' then ' ' else c))

/-- First loop of `extract_title_from_content` over the first ten non-empty
stripped lines: skip short or all digit/non-word lines and lines containing a
boilerplate keyword; return the first cleaned line of length in `[10, 100]`
not ending with a colon. -/
def contentFirstLoop : List (List Char) → Option (List Char)
  | [] => none
  | l :: ls =>
    let line := clean_text l
    if line.length < 3 ||
        matchToks [Tok.plus (fun c => c.isDigit || !wordChar c), Tok.eos] line then
      contentFirstLoop ls
    else if containsSub "page".toList (line.map Char.toLower) ||
            containsSub "copyright".toList (line.map Char.toLower) ||
            containsSub "www.".toList (line.map Char.toLower) ||
            containsSub "http".toList (line.map Char.toLower) then
      contentFirstLoop ls
    else if 10 ≤ line.length ∧ line.length ≤ 100 ∧
            ¬ (line.reverse.head? = some ':') then some line
    else contentFirstLoop ls

/-- Second loop of `extract_title_from_content` over all lines: the first
cleaned line of length at least 10. -/
def contentSecondLoop : List (List Char) → Option (List Char)
  | [] => none
  | l :: ls =>
    let line := clean_text l
    if 10 ≤ line.length then some line else contentSecondLoop ls

/-- `extract_title_from_content`: first page's text, non-empty stripped lines,
the two scanning loops, stem fallback on failure or exception. -/
def extract_title_from_content (d : PdfDoc) : List Char :=
  if d.openFails then stemFallback d.stem
  else
    match d.pages with
    | [] => stemFallback d.stem
    | p0 :: _ =>
      match p0 with
      | Except.error _ => stemFallback d.stem
      | Except.ok none => stemFallback d.stem
      | Except.ok (some text) =>
        if text = [] then stemFallback d.stem
        else
          let lines := ((splitNl text).map pyStrip).filter (· ≠ [])
          match contentFirstLoop (lines.take 10) with
          | some l => l
          | none =>
            match contentSecondLoop lines with
            | some l => l
            | none => stemFallback d.stem

/-- `extract_title`: Python `metadata_title or content_title` — the metadata
result is used unless it is `None` or the empty string. -/
def extract_title (d : PdfDoc) : List Char :=
  match extract_title_from_metadata d with
  | some t => if t = [] then extract_title_from_content d else t
  | none => extract_title_from_content d

/-- Body of the per-line loop of `extract_outline`: clean the line, skip empty
or non-heading lines, classify (passing the line index, no font size), and
append unless a record with the same `(text, page)` already exists. -/
def processLine (page_num i : Nat) (acc : List HeadingRecord) (raw : List Char) :
    List HeadingRecord :=
  let line := clean_text raw
  if line = [] then acc
  else if ¬ is_likely_heading line then acc
  else
    let level := classify_heading_level line (Int.ofNat i) none
    if acc.any (fun h => h.text == line && h.page == page_num) then acc
    else acc ++ [⟨level, line, page_num⟩]

/-- The `for i, line in enumerate(lines)` loop. -/
def processLines (page_num : Nat) : Nat → List (List Char) → List HeadingRecord →
    List HeadingRecord
  | _, [], acc => acc
  | i, l :: ls, acc => processLines page_num (i + 1) ls (processLine page_num i acc l)

/-- The `for page_num, page in enumerate(pdf.pages, 0)` loop; a collaborator
exception while reading a page aborts the loop (caught by the surrounding
`except`), keeping the records accumulated so far. -/
def runPages : List (Except Unit (Option (List Char))) → Nat → List HeadingRecord →
    List HeadingRecord
  | [], _, acc => acc
  | Except.error _ :: _, _, acc => acc
  | Except.ok t? :: rest, n, acc =>
    match t? with
    | none => runPages rest (n + 1) acc
    | some text =>
      if text = [] then runPages rest (n + 1) acc
      else runPages rest (n + 1) (processLines n 0 (splitNl text) acc)

/-- `extract_outline`: the title is resolved before the guarded block; if
`pdfplumber.open` raises, the `except` is reached with the outline still
empty. -/
def extract_outline (d : PdfDoc) : List Char × List HeadingRecord :=
  (extract_title d, if d.openFails then [] else runPages d.pages 0 [])

/-- Strings matching the regex `^\d+\.$` exactly: one or more digits then a
period. -/
def numDotShape (t : List Char) : Prop :=
  ∃ a : List Char, a ≠ [] ∧ (∀ c ∈ a, c.isDigit = true) ∧ t = a ++ ['.']

/-- Strings matching the regex `^\d+\.\d+$` exactly. -/
def numDotNumShape (t : List Char) : Prop :=
  ∃ a b : List Char, a ≠ [] ∧ b ≠ [] ∧ (∀ c ∈ a, c.isDigit = true) ∧
    (∀ c ∈ b, c.isDigit = true) ∧ t = a ++ '.' :: b

/-- Strings matching the regex `^\d+\.\d+\.\d+$` exactly. -/
def numDotNumDotNumShape (t : List Char) : Prop :=
  ∃ a b c : List Char, a ≠ [] ∧ b ≠ [] ∧ c ≠ [] ∧ (∀ d ∈ a, d.isDigit = true) ∧
    (∀ d ∈ b, d.isDigit = true) ∧ (∀ d ∈ c, d.isDigit = true) ∧
    t = a ++ '.' :: (b ++ '.' :: c)

/-- The text matches one of the chapter/appendix entries of
`heading_patterns` (the upper-case twins being identical under IGNORECASE). -/
def chapterAppendixPatternMatch (t : List Char) : Bool :=
  matchToks patChapter t || matchToks patAppendix t

/-- The source test `'chapter' in text.lower() or 'appendix' in text.lower()`. -/
def mentionsChapterOrAppendix (t : List Char) : Bool :=
  containsSub "chapter".toList (t.map Char.toLower) ||
    containsSub "appendix".toList (t.map Char.toLower)

/-- The heading candidate a single raw line yields (before deduplication):
`extract_outline`'s per-line filter and classification. -/
def lineCandidate (page_num i : Nat) (raw : List Char) : Option HeadingRecord :=
  let line := clean_text raw
  if line = [] then none
  else if ¬ is_likely_heading line then none
  else some ⟨classify_heading_level line (Int.ofNat i) none, line, page_num⟩

/-- All heading candidates of a page's lines, in line order. -/
def candLines (page_num : Nat) : Nat → List (List Char) → List HeadingRecord
  | _, [] => []
  | i, l :: ls =>
    match lineCandidate page_num i l with
    | some r => r :: candLines page_num (i + 1) ls
    | none => candLines page_num (i + 1) ls

/-- All heading candidates, in page-then-line scan order, up to the first page
whose read fails. -/
def candPages : List (Except Unit (Option (List Char))) → Nat → List HeadingRecord
  | [], _ => []
  | Except.error _ :: _, _ => []
  | Except.ok t? :: rest, n =>
    (match t? with
     | none => []
     | some text => if text = [] then [] else candLines n 0 (splitNl text)) ++
      candPages rest (n + 1)

/-- The undeduplicated discovery sequence of a document's headings. -/
def candidates (d : PdfDoc) : List HeadingRecord :=
  if d.openFails then [] else candPages d.pages 0

end ProcessPdfs

namespace ProcessPdfs

/-! Character class facts used to reason about digit/dot strings. -/

lemma digit_bounds (c : Char) (h : c.isDigit = true) :
    48 ≤ c.val.toNat ∧ c.val.toNat ≤ 57 := by
  simp [Char.isDigit] at h
  exact ⟨UInt32.le_toNat_of_le (by norm_num) h.1, UInt32.toNat_le_of_le (by norm_num) h.2⟩

lemma digit_beq_false (c a : Char) (h : c.isDigit = true) (ha : 97 ≤ a.val.toNat) :
    (c == a) = false := by
  have hb := digit_bounds c h
  simp only [beq_eq_false_iff_ne, ne_eq]
  intro he
  subst he
  omega

lemma digit_toLower (c : Char) (h : c.isDigit = true) : c.toLower = c := by
  have hb := digit_bounds c h
  unfold Char.toLower
  rw [if_neg]
  intro hx
  simp only [Char.toNat] at hx
  omega

lemma digit_not_space (c : Char) (h : c.isDigit = true) : isSpace c = false := by
  have hb := digit_bounds c h
  unfold isSpace
  have hne : ∀ a : Char, a.val.toNat ≤ 32 → (c == a) = false := by
    intro a ha
    simp only [beq_eq_false_iff_ne, ne_eq]
    intro he; subst he; omega
  rw [hne ' ' (by decide), hne '\t' (by decide), hne '\n' (by decide),
      hne '\r' (by decide), hne '\x0b' (by decide), hne '\x0c' (by decide)]
  rfl

lemma digit_not_upper (c : Char) (h : c.isDigit = true) : c.isUpper = false := by
  have hb := digit_bounds c h
  simp [Char.isUpper]
  intro hc
  have := UInt32.le_toNat_of_le (m := 65) (by norm_num) hc
  omega

lemma digit_not_lower (c : Char) (h : c.isDigit = true) : c.isLower = false := by
  have hb := digit_bounds c h
  simp [Char.isLower]
  intro hc
  have := UInt32.le_toNat_of_le (m := 97) (by norm_num) hc
  omega

lemma digitOrDot_not_space (c : Char) (h : c.isDigit = true ∨ c = '.') :
    isSpace c = false := by
  rcases h with h | h
  · exact digit_not_space c h
  · subst h; decide

lemma digitOrDot_not_upper (c : Char) (h : c.isDigit = true ∨ c = '.') :
    c.isUpper = false := by
  rcases h with h | h
  · exact digit_not_upper c h
  · subst h; decide

lemma digitOrDot_not_lower (c : Char) (h : c.isDigit = true ∨ c = '.') :
    c.isLower = false := by
  rcases h with h | h
  · exact digit_not_lower c h
  · subst h; decide

/-! Generic facts about the token matcher. -/

lemma matchToks_one_inv {p : Char → Bool} {ts : List Tok} {t : List Char}
    (h : matchToks (Tok.one p :: ts) t = true) :
    ∃ c cs, t = c :: cs ∧ p c = true ∧ matchToks ts cs = true := by
  cases t with
  | nil => simp [matchToks] at h
  | cons c cs =>
    rw [matchToks, Bool.and_eq_true] at h
    exact ⟨c, cs, rfl, h.1, h.2⟩

lemma matchToks_one_head_false {p : Char → Bool} {ts : List Tok} {c : Char}
    {cs : List Char} (h : p c = false) :
    matchToks (Tok.one p :: ts) (c :: cs) = false := by
  rw [matchToks, h, Bool.false_and]

lemma matchToks_plus_head_false {p : Char → Bool} {ts : List Tok} {c : Char}
    {cs : List Char} (h : p c = false) :
    matchToks (Tok.plus p :: ts) (c :: cs) = false := by
  rw [matchToks, h, Bool.false_and]

/-- If a token sequence fails on every suffix of `t`, then prefixing any
further tokens (which only consume characters, moving to suffixes) still
fails on `t`. -/
lemma matchToks_prepend_false (ts1 ts2 : List Tok) :
    ∀ t : List Char, (∀ s, s <:+ t → matchToks ts2 s = false) →
      matchToks (ts1 ++ ts2) t = false := by
  induction ts1 with
  | nil =>
    intro t h
    simpa using h t (List.suffix_refl t)
  | cons tok ts1 ih =>
    intro t h
    have hrec : ∀ s, s <:+ t → matchToks (ts1 ++ ts2) s = false := fun s hs =>
      ih s (fun s' hs' => h s' (hs'.trans hs))
    cases tok with
    | one p =>
      cases t with
      | nil => rfl
      | cons c cs =>
        rw [List.cons_append, matchToks, hrec cs (List.suffix_cons c cs), Bool.and_false]
    | star p =>
      rw [List.cons_append, matchToks, List.any_eq_false]
      intro k hk
      simp only [hrec (t.drop k) (List.drop_suffix k t)]
      exact Bool.false_ne_true
    | plus p =>
      cases t with
      | nil => rfl
      | cons c cs =>
        rw [List.cons_append, matchToks]
        have hall : (List.range ((cs.takeWhile p).length + 1)).any
            (fun k => matchToks (ts1 ++ ts2) (cs.drop k)) = false := by
          rw [List.any_eq_false]
          intro k hk
          simp only [hrec (cs.drop k) ((List.drop_suffix k cs).trans (List.suffix_cons c cs))]
          exact Bool.false_ne_true
        rw [hall, Bool.and_false]
    | eos =>
      rw [List.cons_append, matchToks, hrec t (List.suffix_refl t), Bool.and_false]

/-- A pattern whose tail demands a whitespace character fails on a
whitespace-free string. -/
lemma matchToks_space_tail_false (ts1 : List Tok) (t : List Char)
    (hns : ∀ c ∈ t, isSpace c = false) :
    matchToks (ts1 ++ Tok.plus isSpace :: Tok.plus notNl :: [Tok.eos]) t = false := by
  apply matchToks_prepend_false
  intro s hs
  cases s with
  | nil => rfl
  | cons c cs =>
    exact matchToks_plus_head_false (hns c (hs.subset (List.mem_cons_self c cs)))

/-- No pattern of `heading_patterns` matches a non-empty string made of digits
and periods that starts with a digit: the numeric patterns demand whitespace
and further content after the numbering, and the word patterns demand a
letter first. -/
lemma patterns_fail_digitDot (c0 : Char) (cs : List Char) (h0 : c0.isDigit = true)
    (hall : ∀ c ∈ c0 :: cs, c.isDigit = true ∨ c = '.') :
    ∀ p ∈ heading_patterns, matchToks p (c0 :: cs) = false := by
  have hns : ∀ c ∈ c0 :: cs, isSpace c = false := fun c hc =>
    digitOrDot_not_space c (hall c hc)
  have hch : (c0.toLower == 'c') = false := by
    rw [digit_toLower c0 h0]; exact digit_beq_false c0 'c' h0 (by decide)
  have hse : (c0.toLower == 's') = false := by
    rw [digit_toLower c0 h0]; exact digit_beq_false c0 's' h0 (by decide)
  have hap : (c0.toLower == 'a') = false := by
    rw [digit_toLower c0 h0]; exact digit_beq_false c0 'a' h0 (by decide)
  have hivx : ivxChar c0 = false := by
    unfold ivxChar
    rw [digit_beq_false c0 'i' h0 (by decide), digit_beq_false c0 'v' h0 (by decide),
        digit_beq_false c0 'x' h0 (by decide)]
    have hu := digit_not_upper c0 h0
    have hI : (c0 == 'I') = false := by
      simp only [beq_eq_false_iff_ne, ne_eq]; intro he; subst he; simp [Char.isUpper] at hu
    have hV : (c0 == 'V') = false := by
      simp only [beq_eq_false_iff_ne, ne_eq]; intro he; subst he; simp [Char.isUpper] at hu
    have hX : (c0 == 'X') = false := by
      simp only [beq_eq_false_iff_ne, ne_eq]; intro he; subst he; simp [Char.isUpper] at hu
    rw [hI, hV, hX]
    rfl
  have haz : azChar c0 = false := by
    unfold azChar
    rw [digit_not_upper c0 h0, digit_not_lower c0 h0]
    rfl
  intro p hp
  simp only [heading_patterns, List.mem_cons, List.not_mem_nil, or_false] at hp
  rcases hp with rfl | rfl | rfl | rfl | rfl | rfl | rfl | rfl | rfl | rfl | rfl
  · exact matchToks_space_tail_false [Tok.plus Char.isDigit, Tok.one (· == '.')] _ hns
  · exact matchToks_space_tail_false
      [Tok.plus Char.isDigit, Tok.one (· == '.'), Tok.plus Char.isDigit] _ hns
  · exact matchToks_space_tail_false
      [Tok.plus Char.isDigit, Tok.one (· == '.'), Tok.plus Char.isDigit,
       Tok.one (· == '.'), Tok.plus Char.isDigit] _ hns
  · exact matchToks_one_head_false hch
  · exact matchToks_one_head_false hch
  · exact matchToks_one_head_false hse
  · exact matchToks_one_head_false hse
  · exact matchToks_one_head_false hap
  · exact matchToks_one_head_false hap
  · exact matchToks_space_tail_false [Tok.plus ivxChar, Tok.one (· == '.')] _ hns
  · exact matchToks_space_tail_false [Tok.one azChar, Tok.one (· == '.')] _ hns

/-- The pattern loop yields nothing when no pattern matches. -/
lemma classifyLoop_none {pats : List (List Tok)} {t : List Char}
    (h : ∀ p ∈ pats, matchToks p t = false) : classifyLoop pats t = none := by
  induction pats with
  | nil => rfl
  | cons p rest ih =>
    rw [classifyLoop]
    simp only [h p (List.mem_cons_self p rest), Bool.false_eq_true, if_false]
    exact ih (fun q hq => h q (List.mem_cons_of_mem p hq))

/-- The pattern loop yields the inner-check result as soon as some pattern
matches (the inner checks do not depend on which pattern matched). -/
lemma classifyLoop_some {pats : List (List Tok)} {t : List Char} {v : String}
    (hv : innerCheck t = some v) (h : ∃ p ∈ pats, matchToks p t = true) :
    classifyLoop pats t = some v := by
  induction pats with
  | nil => simp at h
  | cons p rest ih =>
    rw [classifyLoop]
    by_cases hp : matchToks p t = true
    · simp only [hp, if_true, hv]
    · have hrest : ∃ q ∈ rest, matchToks q t = true := by
        rcases h with ⟨q, hq, hqt⟩
        rcases List.mem_cons.mp hq with rfl | hq'
        · exact absurd hqt hp
        · exact ⟨q, hq', hqt⟩
      simp only [Bool.not_eq_true] at hp
      simp only [hp, Bool.false_eq_true, if_false]
      exact ih hrest

/-- A string without cased characters is not title-case. -/
lemma istitleAux_uncased : ∀ (t : List Char) (b f : Bool),
    (∀ c ∈ t, c.isUpper = false ∧ c.isLower = false) → istitleAux t b f = f := by
  intro t
  induction t with
  | nil => intro b f h; rfl
  | cons c cs ih =>
    intro b f h
    have hc := h c (List.mem_cons_self c cs)
    rw [istitleAux]
    simp only [hc.1, hc.2, Bool.false_eq_true, if_false]
    exact ih _ _ (fun d hd => h d (List.mem_cons_of_mem c hd))

/-- Dropping while a predicate fails everywhere is the identity. -/
lemma dropWhile_eq_self {p : Char → Bool} {t : List Char}
    (h : ∀ c ∈ t, p c = false) : t.dropWhile p = t := by
  cases t with
  | nil => rfl
  | cons c cs =>
    rw [List.dropWhile_cons, h c (List.mem_cons_self c cs)]
    simp

/-- Taking while a predicate fails everywhere gives the empty list. -/
lemma takeWhile_eq_nil {p : Char → Bool} {t : List Char}
    (h : ∀ c ∈ t, p c = false) : t.takeWhile p = [] := by
  cases t with
  | nil => rfl
  | cons c cs =>
    rw [List.takeWhile_cons, h c (List.mem_cons_self c cs)]
    simp

lemma dropWhile_idem {p : Char → Bool} : ∀ l : List Char,
    (l.dropWhile p).dropWhile p = l.dropWhile p := by
  intro l
  induction l with
  | nil => rfl
  | cons c cs ih =>
    by_cases hc : p c = true
    · rw [List.dropWhile_cons, if_pos hc, ih]
    · simp only [Bool.not_eq_true] at hc
      rw [List.dropWhile_cons, hc]
      simp only [Bool.false_eq_true, if_false]
      rw [List.dropWhile_cons, hc]
      simp

lemma mem_of_mem_dropWhile {p : Char → Bool} {c : Char} : ∀ {l : List Char},
    c ∈ l.dropWhile p → c ∈ l := by
  intro l
  induction l with
  | nil => intro h; exact h
  | cons a as ih =>
    intro h
    rw [List.dropWhile_cons] at h
    by_cases ha : p a = true
    · rw [if_pos ha] at h
      exact List.mem_cons_of_mem a (ih h)
    · simp only [Bool.not_eq_true] at ha
      rw [ha] at h
      simpa using h

/-- Stripping is the identity on whitespace-free strings. -/
lemma pyStrip_eq_self {t : List Char} (h : ∀ c ∈ t, isSpace c = false) :
    pyStrip t = t := by
  unfold pyStrip
  rw [dropWhile_eq_self h,
      dropWhile_eq_self (fun c hc => h c (List.mem_reverse.mp hc)),
      List.reverse_reverse]

/-- Whitespace collapsing is the identity on whitespace-free strings. -/
lemma collapseWs_eq_self : ∀ t : List Char,
    (∀ c ∈ t, isSpace c = false) → collapseWs t = t := by
  intro t
  induction t with
  | nil => intro h; rfl
  | cons c cs ih =>
    intro h
    cases cs with
    | nil =>
      rw [collapseWs, h c (List.mem_cons_self c [])]
      simp
    | cons c2 cs2 =>
      rw [collapseWs, h c (List.mem_cons_self c (c2 :: cs2))]
      simp only [Bool.false_eq_true, if_false]
      rw [ih (fun d hd => h d (List.mem_cons_of_mem c hd))]

/-- Page-number stripping is the identity on whitespace-free strings (the
pattern demands whitespace before the digits). -/
lemma stripTrailingPageNum_eq_self {t : List Char}
    (h : ∀ c ∈ t, isSpace c = false) : stripTrailingPageNum t = t := by
  unfold stripTrailingPageNum
  simp only []
  have hrev : ∀ c ∈ t.reverse, isSpace c = false := fun c hc =>
    h c (List.mem_reverse.mp hc)
  rw [dropWhile_eq_self hrev]
  by_cases hd : t.reverse.takeWhile Char.isDigit = []
  · simp [hd]
  · simp only [hd, if_false]
    have h2 : (t.reverse.drop (t.reverse.takeWhile Char.isDigit).length).takeWhile
        isSpace = [] := by
      apply takeWhile_eq_nil
      intro c hc
      exact hrev c (List.mem_of_mem_drop hc)
    simp [h2]

lemma rstripDots_idem (t : List Char) : rstripDots (rstripDots t) = rstripDots t := by
  unfold rstripDots
  rw [List.reverse_reverse, dropWhile_idem]

lemma rstripDots_subset {t : List Char} {c : Char} (hc : c ∈ rstripDots t) : c ∈ t := by
  unfold rstripDots at hc
  rw [List.mem_reverse] at hc
  exact List.mem_reverse.mp (mem_of_mem_dropWhile hc)

/-- On whitespace-free strings `clean_text` reduces to stripping trailing
periods. -/
lemma clean_text_nospace {t : List Char} (h : ∀ c ∈ t, isSpace c = false) :
    clean_text t = rstripDots t := by
  unfold clean_text
  by_cases ht : t = []
  · subst ht; rfl
  · rw [if_neg ht, pyStrip_eq_self h, collapseWs_eq_self t h, stripTrailingPageNum_eq_self h]

/-- Classification of a non-empty all-digit/period string starting with a
digit, with no font size: no pattern matches, the string is not title-case,
so the default branch yields "H3". -/
lemma classify_digitDot (c0 : Char) (cs : List Char) (h0 : c0.isDigit = true)
    (hall : ∀ c ∈ c0 :: cs, c.isDigit = true ∨ c = '.') (p : Int) :
    classify_heading_level (c0 :: cs) p none = "H3" := by
  have hns : ∀ c ∈ c0 :: cs, isSpace c = false := fun c hc =>
    digitOrDot_not_space c (hall c hc)
  have hstrip : pyStrip (c0 :: cs) = c0 :: cs := pyStrip_eq_self hns
  have hloop : classifyLoop heading_patterns (c0 :: cs) = none :=
    classifyLoop_none (patterns_fail_digitDot c0 cs h0 hall)
  have hti : istitle (c0 :: cs) = false := by
    unfold istitle
    exact istitleAux_uncased _ _ _ (fun c hc =>
      ⟨digitOrDot_not_upper c (hall c hc), digitOrDot_not_lower c (hall c hc)⟩)
  unfold classify_heading_level
  simp only []
  rw [hstrip, hloop, hti]
  rfl

end ProcessPdfs

namespace ProcessPdfs

/-- C1 (counterexample): the claim says `classify_heading_level "3." = "H1"`;
the code returns "H3", for no pattern of the ordered list matches a bare
"3." (each demands whitespace and content after the numbering), so the
`^\d+\.$` branch is dead and the default applies. -/
theorem c1_counterexample : classify_heading_level "3.".toList 0 none ≠ "H1" := by
  decide

/-- C1 (amended): for every text matching `^\d+\.$`, `^\d+\.\d+$` or
`^\d+\.\d+\.\d+$` exactly, with no font size supplied,
`classify_heading_level` returns "H3" (not "H1"/"H2"/"H3" respectively): no
entry of `heading_patterns` matches bare numbering, and bare numbering is not
title-case. -/
theorem c1_amended (t : List Char) (p : Int)
    (h : numDotShape t ∨ numDotNumShape t ∨ numDotNumDotNumShape t) :
    classify_heading_level t p none = "H3" := by
  obtain ⟨c0, cs, ht, h0, hall⟩ : ∃ c0 cs, t = c0 :: cs ∧ c0.isDigit = true ∧
      ∀ c ∈ t, c.isDigit = true ∨ c = '.' := by
    rcases h with ⟨a, ha, had, hte⟩ | ⟨a, b, ha, hb, had, hbd, hte⟩ |
      ⟨a, b, c, ha, hb, hc, had, hbd, hcd, hte⟩
    · cases a with
      | nil => exact absurd rfl ha
      | cons a0 as =>
        refine ⟨a0, as ++ ['.'], by simp [hte], had a0 (List.mem_cons_self _ _), ?_⟩
        intro d hd
        rw [hte] at hd
        simp only [List.cons_append, List.mem_cons, List.mem_append,
          List.not_mem_nil, or_false] at hd
        rcases hd with rfl | hd | rfl
        · exact Or.inl (had d (List.mem_cons_self _ _))
        · exact Or.inl (had d (List.mem_cons_of_mem a0 hd))
        · exact Or.inr rfl
    · cases a with
      | nil => exact absurd rfl ha
      | cons a0 as =>
        refine ⟨a0, as ++ '.' :: b, by simp [hte], had a0 (List.mem_cons_self _ _), ?_⟩
        intro d hd
        rw [hte] at hd
        simp only [List.cons_append, List.mem_cons, List.mem_append] at hd
        rcases hd with rfl | hd | rfl | hd
        · exact Or.inl (had d (List.mem_cons_self _ _))
        · exact Or.inl (had d (List.mem_cons_of_mem a0 hd))
        · exact Or.inr rfl
        · exact Or.inl (hbd d hd)
    · cases a with
      | nil => exact absurd rfl ha
      | cons a0 as =>
        refine ⟨a0, as ++ '.' :: (b ++ '.' :: c), by simp [hte],
          had a0 (List.mem_cons_self _ _), ?_⟩
        intro d hd
        rw [hte] at hd
        simp only [List.cons_append, List.mem_cons, List.mem_append] at hd
        rcases hd with rfl | hd | rfl | hd | rfl | hd
        · exact Or.inl (had d (List.mem_cons_self _ _))
        · exact Or.inl (had d (List.mem_cons_of_mem a0 hd))
        · exact Or.inr rfl
        · exact Or.inl (hbd d hd)
        · exact Or.inr rfl
        · exact Or.inl (hcd d hd)
  subst ht
  exact classify_digitDot c0 cs h0 hall p

/-- C1 (witness): "3." satisfies the `^\d+\.$` shape and is classified "H3". -/
theorem c1_witness :
    numDotShape "3.".toList ∧ classify_heading_level "3.".toList 0 none = "H3" :=
  ⟨⟨['3'], by decide, by decide, by decide⟩,
   c1_amended _ 0 (Or.inl ⟨['3'], by decide, by decide, by decide⟩)⟩

/-- C2 (counterexample): the claim says the line "1. Introduction" is
classified "H1"; the code classifies it "H2" (pattern 1 matches but none of
the inner checks fires, and the text is title-case). -/
theorem c2_counterexample :
    classify_heading_level "1. Introduction".toList 0 none ≠ "H1" := by
  decide

/-- C2 (amended): for the input line "1. Introduction" on page 0, cleaning
leaves the text unchanged, `is_likely_heading` accepts it, and
`classify_heading_level` assigns level "H2" (not "H1"); the resulting record
keeps the full cleaned line "1. Introduction" as its text. -/
theorem c2_amended :
    clean_text "1. Introduction".toList = "1. Introduction".toList ∧
    is_likely_heading "1. Introduction".toList = true ∧
    classify_heading_level "1. Introduction".toList 0 none = "H2" ∧
    (extract_outline ⟨none, false, [Except.ok (some "1. Introduction".toList)],
        "doc".toList⟩).2 =
      [⟨"H2", "1. Introduction".toList, 0⟩] := by
  refine ⟨by decide, by decide, by decide, by decide⟩

/-- C3 (counterexample): `clean_text` is not idempotent: on "a 5." one pass
gives "a 5" (the trailing period is stripped after the page-number rule did
not fire), a second pass then strips " 5" as a page-number artifact. -/
theorem c3_counterexample :
    clean_text (clean_text "a 5.".toList) ≠ clean_text "a 5.".toList := by
  decide

/-- C3 (amended): `clean_text` is idempotent on every string containing no
whitespace character (then only trailing periods are removed, and removing
them again changes nothing); in general it is not idempotent. -/
theorem c3_amended (t : List Char) (h : ∀ c ∈ t, isSpace c = false) :
    clean_text (clean_text t) = clean_text t := by
  rw [clean_text_nospace h]
  have h2 : ∀ c ∈ rstripDots t, isSpace c = false := fun c hc =>
    h c (rstripDots_subset hc)
  rw [clean_text_nospace h2, rstripDots_idem]

/-- C3 (witness): the whitespace-free string "ab.." is cleaned idempotently. -/
theorem c3_witness :
    (∀ c ∈ "ab..".toList, isSpace c = false) ∧
    clean_text (clean_text "ab..".toList) = clean_text "ab..".toList :=
  ⟨by decide, c3_amended _ (by decide)⟩

/-- C5: `is_likely_heading` returns false on every string shorter than 3 or
longer than 150 characters, and on every string ending in one of
`. , ; ! ?`, regardless of its other content. -/
theorem c5_rejections (t : List Char)
    (h : t.length < 3 ∨ 150 < t.length ∨ endsWithPunct t = true) :
    is_likely_heading t = false := by
  unfold is_likely_heading
  by_cases hlen : (t.length < 3 ∨ 150 < t.length)
  · have hb : (decide (t.length < 3) || decide (t.length > 150)) = true := by
      rcases hlen with hl | hl <;> simp [hl]
    simp [hb]
  · push_neg at hlen
    have hb : (decide (t.length < 3) || decide (t.length > 150)) = false := by
      simp
      omega
    rw [hb]
    simp only [Bool.false_eq_true, if_false]
    have hp : endsWithPunct t = true := by
      rcases h with hl | hl | hp
      · exact absurd hl (by omega)
      · exact absurd hl (by omega)
      · exact hp
    rw [hp]
    rfl

/-- C5 (witness): "Hello." ends with a period and is rejected. -/
theorem c5_witness :
    endsWithPunct "Hello.".toList = true ∧
    is_likely_heading "Hello.".toList = false :=
  ⟨by decide, c5_rejections _ (Or.inr (Or.inr (by decide)))⟩

/-- C8: any text whose stripped form matches a chapter/appendix entry of the
ordered pattern list and mentions "chapter" or "appendix" case-insensitively
is classified "H1" for every font size: the loop returns before the
font-size thresholds are consulted. -/
theorem c8_chapter_appendix_h1 (text : List Char) (p : Int) (fs : Option ℚ)
    (h1 : chapterAppendixPatternMatch (pyStrip text) = true)
    (h2 : mentionsChapterOrAppendix (pyStrip text) = true) :
    classify_heading_level text p fs = "H1" := by
  have hhead : ∃ c0 cs, pyStrip text = c0 :: cs ∧ c0.isDigit = false := by
    unfold chapterAppendixPatternMatch at h1
    rw [Bool.or_eq_true] at h1
    rcases h1 with h1 | h1
    · obtain ⟨c0, cs, he, hp, -⟩ := matchToks_one_inv
        (show matchToks (Tok.one (fun c => c.toLower == 'c') ::
          (litToks ['h', 'a', 'p', 't', 'e', 'r'] ++
            [Tok.plus isSpace, Tok.plus Char.isDigit, Tok.star colonDotSpace,
             Tok.star notNl, Tok.eos])) (pyStrip text) = true from h1)
      refine ⟨c0, cs, he, ?_⟩
      by_contra hd
      rw [Bool.not_eq_false] at hd
      rw [digit_toLower c0 hd, digit_beq_false c0 'c' hd (by decide)] at hp
      exact Bool.false_ne_true hp
    · obtain ⟨c0, cs, he, hp, -⟩ := matchToks_one_inv
        (show matchToks (Tok.one (fun c => c.toLower == 'a') ::
          (litToks ['p', 'p', 'e', 'n', 'd', 'i', 'x'] ++
            [Tok.plus isSpace, Tok.one azChar, Tok.star colonDotSpace,
             Tok.star notNl, Tok.eos])) (pyStrip text) = true from h1)
      refine ⟨c0, cs, he, ?_⟩
      by_contra hd
      rw [Bool.not_eq_false] at hd
      rw [digit_toLower c0 hd, digit_beq_false c0 'a' hd (by decide)] at hp
      exact Bool.false_ne_true hp
  obtain ⟨c0, cs, he, hd0⟩ := hhead
  have hinner : innerCheck (pyStrip text) = some "H1" := by
    unfold innerCheck
    rw [he]
    rw [matchToks_plus_head_false hd0, matchToks_plus_head_false hd0,
        matchToks_plus_head_false hd0]
    have hca : (containsSub "chapter".toList ((c0 :: cs).map Char.toLower) ||
        containsSub "appendix".toList ((c0 :: cs).map Char.toLower)) = true := by
      unfold mentionsChapterOrAppendix at h2
      rw [he] at h2
      exact h2
    rw [if_pos hca]
    rfl
  have hexists : ∃ pt ∈ heading_patterns, matchToks pt (pyStrip text) = true := by
    unfold chapterAppendixPatternMatch at h1
    rw [Bool.or_eq_true] at h1
    rcases h1 with h1 | h1
    · exact ⟨patChapter, by simp [heading_patterns], h1⟩
    · exact ⟨patAppendix, by simp [heading_patterns], h1⟩
  have hloop := classifyLoop_some hinner hexists
  unfold classify_heading_level
  simp only []
  rw [hloop]

/-- C8 (witness): "Chapter 1 Overview" matches the chapter pattern, mentions
"chapter", and is classified "H1" at position 7 with font size 10. -/
theorem c8_witness :
    chapterAppendixPatternMatch (pyStrip "Chapter 1 Overview".toList) = true ∧
    mentionsChapterOrAppendix (pyStrip "Chapter 1 Overview".toList) = true ∧
    classify_heading_level "Chapter 1 Overview".toList 7 (some 10) = "H1" :=
  ⟨by decide, by decide,
   c8_chapter_appendix_h1 _ 7 (some 10) (by decide) (by decide)⟩

end ProcessPdfs

namespace ProcessPdfs

/-- Appending through the deduplication guard preserves pairwise key
distinctness. -/
lemma processLine_distinct {pn i : Nat} {acc : List HeadingRecord} {raw : List Char}
    (h : acc.Pairwise fun a b => ¬(a.text = b.text ∧ a.page = b.page)) :
    (processLine pn i acc raw).Pairwise
      fun a b => ¬(a.text = b.text ∧ a.page = b.page) := by
  unfold processLine
  simp only []
  split
  · exact h
  · split
    · exact h
    · split
      · exact h
      · rename_i hany
        rw [List.pairwise_append]
        refine ⟨h, List.pairwise_singleton _ _, ?_⟩
        intro a ha b hb
        simp only [List.mem_singleton] at hb
        subst hb
        intro hk
        apply hany
        rw [List.any_eq_true]
        refine ⟨a, ha, ?_⟩
        rw [Bool.and_eq_true, beq_iff_eq, beq_iff_eq]
        exact ⟨hk.1, hk.2⟩

lemma processLines_distinct (pn : Nat) : ∀ (ls : List (List Char)) (i : Nat)
    (acc : List HeadingRecord),
    acc.Pairwise (fun a b => ¬(a.text = b.text ∧ a.page = b.page)) →
    (processLines pn i ls acc).Pairwise
      fun a b => ¬(a.text = b.text ∧ a.page = b.page) := by
  intro ls
  induction ls with
  | nil => intro i acc h; exact h
  | cons l ls ih => intro i acc h; exact ih (i + 1) _ (processLine_distinct h)

lemma runPages_distinct : ∀ (ps : List (Except Unit (Option (List Char)))) (n : Nat)
    (acc : List HeadingRecord),
    acc.Pairwise (fun a b => ¬(a.text = b.text ∧ a.page = b.page)) →
    (runPages ps n acc).Pairwise fun a b => ¬(a.text = b.text ∧ a.page = b.page) := by
  intro ps
  induction ps with
  | nil => intro n acc h; exact h
  | cons pg rest ih =>
    intro n acc h
    cases pg with
    | error e => exact h
    | ok t? =>
      cases t? with
      | none => exact ih (n + 1) acc h
      | some text =>
        rw [runPages]
        split
        · exact ih (n + 1) acc h
        · exact ih (n + 1) _ (processLines_distinct n (splitNl text) 0 acc h)

/-- C4: no two records of a built outline share the same `(text, page)` pair —
the deduplication guard checks the whole accumulated outline before each
append. -/
theorem c4_uniqueness (d : PdfDoc) :
    (extract_outline d).2.Pairwise
      fun a b => ¬(a.text = b.text ∧ a.page = b.page) := by
  show (if d.openFails then [] else runPages d.pages 0 []).Pairwise _
  split
  · exact List.Pairwise.nil
  · exact runPages_distinct d.pages 0 [] List.Pairwise.nil

/-- The per-line step of the builder, phrased through the candidate it may
append. -/
lemma processLine_eq (pn i : Nat) (acc : List HeadingRecord) (raw : List Char) :
    processLine pn i acc raw =
      match lineCandidate pn i raw with
      | none => acc
      | some r =>
        if acc.any (fun h => h.text == r.text && h.page == r.page) then acc
        else acc ++ [r] := by
  unfold processLine lineCandidate
  simp only []
  split
  · rfl
  · split
    · rfl
    · rfl

/-- A record produced by a line of page `pn` carries page number `pn`. -/
lemma lineCandidate_page {pn i : Nat} {raw : List Char} {r : HeadingRecord}
    (h : lineCandidate pn i raw = some r) : r.page = pn := by
  unfold lineCandidate at h
  simp only [] at h
  split at h
  · exact absurd h (by simp)
  · split at h
    · exact absurd h (by simp)
    · cases h
      rfl

lemma processLines_sublist (pn : Nat) : ∀ (ls : List (List Char)) (i : Nat)
    (acc : List HeadingRecord),
    ∃ s, processLines pn i ls acc = acc ++ s ∧ s.Sublist (candLines pn i ls) := by
  intro ls
  induction ls with
  | nil => intro i acc; exact ⟨[], by simp [processLines], by simp [candLines]⟩
  | cons l ls ih =>
    intro i acc
    cases hlc : lineCandidate pn i l with
    | none =>
      obtain ⟨s, hs1, hs2⟩ := ih (i + 1) (processLine pn i acc l)
      refine ⟨s, ?_, ?_⟩
      · rw [processLines, hs1, processLine_eq, hlc]
      · rw [candLines, hlc]
        exact hs2
    | some r =>
      by_cases hdup : (acc.any fun h => h.text == r.text && h.page == r.page) = true
      · obtain ⟨s, hs1, hs2⟩ := ih (i + 1) acc
        refine ⟨s, ?_, ?_⟩
        · rw [processLines, processLine_eq, hlc]
          simp only [hdup, if_true]
          exact hs1
        · rw [candLines, hlc]
          exact hs2.cons r
      · obtain ⟨s, hs1, hs2⟩ := ih (i + 1) (acc ++ [r])
        refine ⟨r :: s, ?_, ?_⟩
        · rw [processLines, processLine_eq, hlc]
          simp only [hdup, Bool.false_eq_true, if_false]
          rw [hs1, List.append_assoc]
          rfl
        · rw [candLines, hlc]
          exact hs2.cons₂ r

lemma runPages_sublist : ∀ (ps : List (Except Unit (Option (List Char)))) (n : Nat)
    (acc : List HeadingRecord),
    ∃ s, runPages ps n acc = acc ++ s ∧ s.Sublist (candPages ps n) := by
  intro ps
  induction ps with
  | nil => intro n acc; exact ⟨[], by simp [runPages], by simp [candPages]⟩
  | cons pg rest ih =>
    intro n acc
    cases pg with
    | error e => exact ⟨[], by simp [runPages], by simp [candPages]⟩
    | ok t? =>
      cases t? with
      | none =>
        obtain ⟨s, h1, h2⟩ := ih (n + 1) acc
        refine ⟨s, by rw [runPages]; exact h1, ?_⟩
        rw [candPages]
        simpa using h2
      | some text =>
        by_cases htext : text = []
        · obtain ⟨s, h1, h2⟩ := ih (n + 1) acc
          refine ⟨s, ?_, ?_⟩
          · rw [runPages, if_pos htext]
            exact h1
          · rw [candPages, if_pos htext]
            simpa using h2
        · obtain ⟨s1, h11, h12⟩ := processLines_sublist n (splitNl text) 0 acc
          obtain ⟨s2, h21, h22⟩ := ih (n + 1) (acc ++ s1)
          refine ⟨s1 ++ s2, ?_, ?_⟩
          · rw [runPages, if_neg htext, h11, h21, List.append_assoc]
          · rw [candPages, if_neg htext]
            exact List.Sublist.append h12 h22

lemma candLines_page (pn : Nat) : ∀ (ls : List (List Char)) (i : Nat),
    ∀ r ∈ candLines pn i ls, r.page = pn := by
  intro ls
  induction ls with
  | nil => intro i r hr; simp [candLines] at hr
  | cons l ls ih =>
    intro i r hr
    rw [candLines] at hr
    cases hlc : lineCandidate pn i l with
    | none =>
      rw [hlc] at hr
      exact ih (i + 1) r hr
    | some r0 =>
      rw [hlc] at hr
      rcases List.mem_cons.mp hr with rfl | hr'
      · exact lineCandidate_page hlc
      · exact ih (i + 1) r hr'

lemma candPages_ge : ∀ (ps : List (Except Unit (Option (List Char)))) (n : Nat),
    ∀ r ∈ candPages ps n, n ≤ r.page := by
  intro ps
  induction ps with
  | nil => intro n r hr; simp [candPages] at hr
  | cons pg rest ih =>
    intro n r hr
    cases pg with
    | error e => simp [candPages] at hr
    | ok t? =>
      cases t? with
      | none =>
        have he : candPages (Except.ok none :: rest) n = candPages rest (n + 1) := rfl
        rw [he] at hr
        have := ih (n + 1) r hr
        omega
      | some text =>
        have he : candPages (Except.ok (some text) :: rest) n =
            (if text = [] then [] else candLines n 0 (splitNl text)) ++
              candPages rest (n + 1) := rfl
        rw [he, List.mem_append] at hr
        rcases hr with hr | hr
        · by_cases ht : text = []
          · rw [if_pos ht] at hr; simp at hr
          · rw [if_neg ht] at hr
            rw [candLines_page n (splitNl text) 0 r hr]
        · have := ih (n + 1) r hr
          omega

lemma pairwise_le_of_const (l : List HeadingRecord) (n : Nat)
    (h : ∀ r ∈ l, r.page = n) : l.Pairwise fun a b => a.page ≤ b.page := by
  induction l with
  | nil => exact List.Pairwise.nil
  | cons a l ih =>
    refine List.Pairwise.cons ?_ (ih fun r hr => h r (List.mem_cons_of_mem a hr))
    intro b hb
    rw [h a (List.mem_cons_self a l), h b (List.mem_cons_of_mem a hb)]

lemma candPages_sorted : ∀ (ps : List (Except Unit (Option (List Char)))) (n : Nat),
    (candPages ps n).Pairwise fun a b => a.page ≤ b.page := by
  intro ps
  induction ps with
  | nil => intro n; simp [candPages]
  | cons pg rest ih =>
    intro n
    cases pg with
    | error e => simp [candPages]
    | ok t? =>
      cases t? with
      | none =>
        have he : candPages (Except.ok none :: rest) n = candPages rest (n + 1) := rfl
        rw [he]
        exact ih (n + 1)
      | some text =>
        have he : candPages (Except.ok (some text) :: rest) n =
            (if text = [] then [] else candLines n 0 (splitNl text)) ++
              candPages rest (n + 1) := rfl
        rw [he, List.pairwise_append]
        refine ⟨?_, ih (n + 1), ?_⟩
        · by_cases ht : text = []
          · rw [if_pos ht]; simp
          · rw [if_neg ht]
            exact pairwise_le_of_const _ n (candLines_page n (splitNl text) 0)
        · intro a ha b hb
          have hb' := candPages_ge rest (n + 1) b hb
          by_cases ht : text = []
          · rw [if_pos ht] at ha; simp at ha
          · rw [if_neg ht] at ha
            have ha' := candLines_page n (splitNl text) 0 a ha
            omega

/-- C9: the outline is a subsequence of the undeduplicated page-then-line
discovery sequence (so records appear in discovery order, and same-page
records keep their source-line order), and its page numbers are
nondecreasing. -/
theorem c9_order (d : PdfDoc) :
    (extract_outline d).2.Sublist (candidates d) ∧
    ((extract_outline d).2.map HeadingRecord.page).Pairwise (· ≤ ·) := by
  have hsub : (extract_outline d).2.Sublist (candidates d) := by
    show (if d.openFails then [] else runPages d.pages 0 []).Sublist (candidates d)
    unfold candidates
    split
    · exact List.Sublist.refl []
    · obtain ⟨s, h1, h2⟩ := runPages_sublist d.pages 0 []
      rw [h1]
      simpa using h2
  refine ⟨hsub, ?_⟩
  rw [List.pairwise_map]
  refine List.Pairwise.sublist hsub ?_
  unfold candidates
  split
  · exact List.Pairwise.nil
  · exact candPages_sorted d.pages 0

/-- C6 (counterexample): the claim's iff fails — the `> 3` length test is
applied to the stripped raw metadata title, before cleaning.  For metadata
title "A 12" the raw length is 4, so the resolver returns the cleaned value
"A" although the cleaned value's length is 1 ≤ 3. -/
theorem c6_counterexample :
    extract_title ⟨some "A 12".toList, false, [], "x".toList⟩ =
      clean_text (pyStrip "A 12".toList) ∧
    (clean_text (pyStrip "A 12".toList)).length ≤ 3 :=
  ⟨by decide, by decide⟩

/-- C6 (amended): the resolver returns the cleaned metadata title iff the
stripped raw metadata value has length strictly greater than 3 and the
cleaned value is non-empty (the length test precedes cleaning); in every
other case, including an unreadable metadata field (`metaTitle = none`), it
falls through to the content/filename fallback with no error. -/
theorem c6_amended (d : PdfDoc) :
    extract_title d =
      match d.metaTitle with
      | none => extract_title_from_content d
      | some raw =>
        if 3 < (pyStrip raw).length ∧ clean_text (pyStrip raw) ≠ [] then
          clean_text (pyStrip raw)
        else extract_title_from_content d := by
  unfold extract_title
  cases hm : d.metaTitle with
  | none =>
    have hmeta : extract_title_from_metadata d = none := by
      unfold extract_title_from_metadata
      rw [hm]
    rw [hmeta]
  | some raw =>
    have hmeta : extract_title_from_metadata d =
        if pyStrip raw ≠ [] ∧ 3 < (pyStrip raw).length then
          some (clean_text (pyStrip raw))
        else none := by
      unfold extract_title_from_metadata
      rw [hm]
    by_cases h1 : 3 < (pyStrip raw).length
    · have hne : pyStrip raw ≠ [] := by
        intro he
        rw [he] at h1
        simp at h1
      rw [hmeta, if_pos ⟨hne, h1⟩]
      show (if clean_text (pyStrip raw) = [] then extract_title_from_content d
            else clean_text (pyStrip raw)) =
          (if 3 < (pyStrip raw).length ∧ clean_text (pyStrip raw) ≠ [] then
            clean_text (pyStrip raw)
          else extract_title_from_content d)
      by_cases h2 : clean_text (pyStrip raw) = []
      · rw [if_pos h2, if_neg (fun hc => hc.2 h2)]
      · rw [if_neg h2, if_pos ⟨h1, h2⟩]
    · rw [hmeta, if_neg (fun hc => h1 hc.2)]
      show extract_title_from_content d =
          (if 3 < (pyStrip raw).length ∧ clean_text (pyStrip raw) ≠ [] then
            clean_text (pyStrip raw)
          else extract_title_from_content d)
      rw [if_neg (fun hc => h1 hc.1)]

/-- C7 (counterexample): when the collaborator throws while reading a page
after a heading was already found, the outline is the partial accumulation,
not the empty list the claim requires: page 0 yields the heading
"Chapter 1: Introduction", page 1 read throws, and the result keeps one
record. -/
theorem c7_counterexample :
    (extract_outline ⟨none, false,
        [Except.ok (some "Chapter 1: Introduction".toList), Except.error ()],
        "doc".toList⟩).2 =
      [⟨"H1", "Chapter 1: Introduction".toList, 0⟩] ∧
    (extract_outline ⟨none, false,
        [Except.ok (some "Chapter 1: Introduction".toList), Except.error ()],
        "doc".toList⟩).2 ≠ [] :=
  ⟨by decide, by decide⟩

/-- C7 (amended): the exception is never propagated; when the collaborator
throws on open, the result is the resolved/fallback title with an empty
outline (a failure while reading a later page instead keeps the records
accumulated before it). -/
theorem c7_amended (d : PdfDoc) (h : d.openFails = true) :
    extract_outline d = (extract_title d, []) := by
  unfold extract_outline
  rw [if_pos h]

/-- C7 (witness): a document whose open fails yields its title and an empty
outline. -/
theorem c7_witness :
    (⟨none, true, [], "my_doc".toList⟩ : PdfDoc).openFails = true ∧
    extract_outline ⟨none, true, [], "my_doc".toList⟩ =
      (extract_title ⟨none, true, [], "my_doc".toList⟩, []) :=
  ⟨rfl, c7_amended _ rfl⟩

/-- C10: `classify_heading_level` never reads its `line_position` argument,
so any two positions give the same level for every text and font size. -/
theorem c10_position_noninterference (t : List Char) (p1 p2 : Int)
    (fs : Option ℚ) :
    classify_heading_level t p1 fs = classify_heading_level t p2 fs := rfl

end ProcessPdfs
